import Mathlib

/-!
Verification of the buffered-logging core of the `arduino-logger` library.

The development shallowly embeds the C++ sources:

* `src/src/internal/circular_buffer.hpp` — the `CircularBuffer<T, TCount>`
  ring buffer (here specialized to `T = char`, bytes modeled as `Nat`, and
  the compile-time `TCount` modeled as the run-time field `maxSize`);
* `src/src/ArduinoLogger.h` — the `LoggerBase` state machine
  (`log_add_char_to_buffer`, `flush`, `log_interrupt`, the `echo` /
  `auto_flush` setters) over the `CircularLogBufferLogger` sink
  (`flush_` drains the ring buffer to the console);
* `src/src/SDFileLogger.h` and `src/src/TeensySDRotationalModuleLogger.h` —
  the two `writeBufferToSDFile` sink-write routines;
* `src/src/TeensyRobustModuleLogger.h` — the EEPROM fallback flush path
  (`flush_` EEPROM branch and `EEPROMWriteAndIncrement`).

Machine integers (`size_t`) are modeled as `Nat`; the only place overflow or
partiality matters is the `% max_size_` arithmetic, which in C++ is undefined
behavior when `max_size_ == 0`, so `put` returns an `Option`.
-/

/-- Ring buffer state of `CircularBuffer<char, TCount>`
(`circular_buffer.hpp`).  `maxSize` is `max_size_ = TCount`; `buf` models
the backing array `T buf_[TCount]` as a list of length `maxSize`. -/
structure CircularBuffer where
  head : Nat
  tail : Nat
  maxSize : Nat
  full : Bool
  buf : List Nat
deriving DecidableEq

namespace CircularBuffer

/-- A freshly constructed `CircularBuffer()`: `head_ = tail_ = 0`,
`full_ = false`.  The C++ array contents are indeterminate; they are modeled
as zeros (no operation reads an unwritten slot under the buffer invariant). -/
def mkBuffer (n : Nat) : CircularBuffer :=
  { head := 0, tail := 0, maxSize := n, full := false, buf := List.replicate n 0 }

/-- `capacity()`: returns `max_size_`. -/
def capacity (b : CircularBuffer) : Nat := b.maxSize

/-- `empty()`: `!full_ && (head_ == tail_)`. -/
def empty (b : CircularBuffer) : Bool := !b.full && (b.head == b.tail)

/-- `size()`: `max_size_` when full, else `head_ - tail_`, adding
`max_size_` first when `head_ < tail_`. -/
def size (b : CircularBuffer) : Nat :=
  if !b.full then
    if b.head ≥ b.tail then b.head - b.tail else b.maxSize + b.head - b.tail
  else
    b.maxSize

/-- `put(item)`: stores at `head_`, advances `tail_` first when full, then
advances `head_`, recomputing `full_ = (head_ == tail_)`.  When
`max_size_ == 0` the store `buf_[head_]` targets a zero-length array and the
`% max_size_` advance divides by zero — undefined behavior in C++ — so the
model returns `none` (a fault). -/
def put (b : CircularBuffer) (item : Nat) : Option CircularBuffer :=
  if b.maxSize = 0 then
    none
  else
    let buf' := b.buf.set b.head item
    let tail' := if b.full then (b.tail + 1) % b.maxSize else b.tail
    let head' := (b.head + 1) % b.maxSize
    some { b with buf := buf', tail := tail', head := head', full := head' == tail' }

/-- Total version of `put` for buffers of positive capacity; agrees with
`put` whenever `max_size_ ≠ 0` (`put_eq_putD` below). -/
def putD (b : CircularBuffer) (item : Nat) : CircularBuffer :=
  (b.put item).getD b

/-- `get()`: returns `T()` (zero) on an empty buffer without touching state;
otherwise reads `buf_[tail_]`, clears `full_`, advances `tail_`. -/
def get (b : CircularBuffer) : Nat × CircularBuffer :=
  if b.empty then
    (0, b)
  else
    (b.buf.getD b.tail 0, { b with full := false, tail := (b.tail + 1) % b.maxSize })

/-- `reset()`: `head_ = tail_; full_ = false`. -/
def reset (b : CircularBuffer) : CircularBuffer :=
  { b with head := b.tail, full := false }

/-- Logical contents of the ring buffer, oldest byte first: the rotation of
the storage starting at `tail_`, truncated to `size()` items. -/
def toList (b : CircularBuffer) : List Nat :=
  (b.buf.drop b.tail ++ b.buf.take b.tail).take b.size

/-- Structural invariant maintained by the code for every buffer of positive
capacity: the indices stay inside the storage, the storage has length
`max_size_`, and `full_` is only set when `head_ == tail_`. -/
def Inv (b : CircularBuffer) : Prop :=
  b.head < b.maxSize ∧ b.tail < b.maxSize ∧ b.buf.length = b.maxSize ∧
    (b.full = true → b.head = b.tail)

instance (b : CircularBuffer) : Decidable b.Inv :=
  inferInstanceAs (Decidable (b.head < b.maxSize ∧ b.tail < b.maxSize ∧
    b.buf.length = b.maxSize ∧ (b.full = true → b.head = b.tail)))

/-- A sequence of `put` calls, propagating the fault case. -/
def putSeqM (b : CircularBuffer) (xs : List Nat) : Option CircularBuffer :=
  xs.foldlM put b

/-- A sequence of `put` calls through the total wrapper `putD`. -/
def putList (b : CircularBuffer) (xs : List Nat) : CircularBuffer :=
  xs.foldl putD b

/-- The `while(!empty()) { consume(get()); }` drain loop, collecting the
values returned by `get()` in order.  The fuel argument is instantiated with
`size()`, which bounds the number of iterations. -/
def drainAux : Nat → CircularBuffer → List Nat × CircularBuffer
  | 0, b => ([], b)
  | fuel + 1, b =>
    if b.empty then
      ([], b)
    else
      let r := b.get
      let rest := drainAux fuel r.2
      (r.1 :: rest.1, rest.2)

/-- Drain the buffer via repeated `get()` calls until `empty()`. -/
def drain (b : CircularBuffer) : List Nat × CircularBuffer :=
  drainAux b.size b

end CircularBuffer

/-- One user-visible ring-buffer operation (for reachability statements). -/
inductive LogOp where
  | put (x : Nat)
  | get
  | reset

/-- Apply one operation to the buffer (the fault-free `putD` is used; `put`
never faults on buffers of positive capacity, see `put_eq_putD`). -/
def applyOp (b : CircularBuffer) : LogOp → CircularBuffer
  | .put x => b.putD x
  | .get => b.get.2
  | .reset => b.reset

/-- Run a sequence of ring-buffer operations from a given state. -/
def runOps (b : CircularBuffer) (ops : List LogOp) : CircularBuffer :=
  ops.foldl applyOp b

/-- `SDFileLogger::writeBufferToSDFile` (`SDFileLogger.h`).  The SdFat file
is abstracted by `acc`, which reports for each requested chunk how many bytes
`file_.write` actually wrote; the bytes that reach the file are the first
`acc chunk` bytes of the chunk.  A chunk `write(&buffer[t], n)` is modeled as
`(buf.drop t).take n` (in-bounds under the buffer invariant).  `none` models
`errorHalt("Failed to write to log file")`, which never returns.  On success
the routine returns the reset buffer and the bytes appended to the file. -/
def writeBufferToSDFile (b : CircularBuffer) (acc : List Nat → Nat) :
    Option (CircularBuffer × List Nat) :=
  if b.head < b.tail ∨ (0 < b.tail ∧ b.size = b.capacity) then
    let segA := (b.buf.drop b.tail).take (b.capacity - b.tail)
    let segB := b.buf.take b.head
    let w1 := acc segA
    let w2 := acc segB
    if w1 + w2 = b.size then some (b.reset, segA.take w1 ++ segB.take w2) else none
  else
    let seg := (b.buf.drop b.tail).take b.size
    let w := acc seg
    if w = b.size then some (b.reset, seg.take w) else none

/-- The `bytes_written` accumulator of `SDFileLogger::writeBufferToSDFile`:
the byte counts reported by `file_.write` summed over the one or two calls. -/
def sdWriteCount (b : CircularBuffer) (acc : List Nat → Nat) : Nat :=
  if b.head < b.tail ∨ (0 < b.tail ∧ b.size = b.capacity) then
    acc ((b.buf.drop b.tail).take (b.capacity - b.tail)) + acc (b.buf.take b.head)
  else
    acc ((b.buf.drop b.tail).take b.size)

/-- `TeensySDRotationalModuleLogger::writeBufferToSDFile`
(`TeensySDRotationalModuleLogger.h`).  When `head > tail` the code calls
`file_.write(&buffer[head], log_buffer_.capacity())`: it reads `capacity()`
bytes starting at index `head ≥ 1`, running past the end of the
`capacity()`-byte array — undefined behavior, modeled as `none`.  Otherwise
it only calls `file_.write(buffer, tail)` and halts when the reported count
differs from `size()`. -/
def teensyModuleWriteToSDFile (b : CircularBuffer) (acc : List Nat → Nat) :
    Option (CircularBuffer × List Nat) :=
  if b.tail < b.head then
    none
  else
    let seg := b.buf.take b.tail
    let w := acc seg
    if w = b.size then some (b.reset, seg.take w) else none

/-- EEPROM sink state of `TeensyRobustModuleLogger` (`TeensyRobustModuleLogger.h`):
the EEPROM cells (`EEPROM.write` target, addressed by `Nat`), the persistent
cursor `eeprom_write_pos_`, the window `eeprom_log_address_` /
`eeprom_log_size_`, and the `eeprom_full_` flag. -/
structure EEPROMState where
  mem : Nat → Nat
  writePos : Nat
  logAddress : Nat
  logSize : Nat
  eepromFull : Bool

/-- `TeensyRobustModuleLogger::EEPROMWriteAndIncrement(char c)`: writes `c`
at `eeprom_log_address_ + eeprom_write_pos_`, increments the cursor, and on
reaching `eeprom_log_size_` wraps the cursor to 0 and latches
`eeprom_full_ = true`. -/
def EEPROMWriteAndIncrement (e : EEPROMState) (c : Nat) : EEPROMState :=
  let mem' := fun a => if a = e.logAddress + e.writePos then c else e.mem a
  if e.writePos + 1 = e.logSize then
    { e with mem := mem', writePos := 0, eepromFull := true }
  else
    { e with mem := mem', writePos := e.writePos + 1 }

/-- The EEPROM branch of `TeensyRobustModuleLogger::flush_`: drain the ring
buffer byte-by-byte through `EEPROMWriteAndIncrement`, append a single `0x00`
sentinel, then `log_buffer_.reset()`. -/
def flushEEPROM (b : CircularBuffer) (e : EEPROMState) : CircularBuffer × EEPROMState :=
  let r := b.drain
  let e' := EEPROMWriteAndIncrement (r.1.foldl EEPROMWriteAndIncrement e) 0x0
  (r.2.reset, e')

/-- `LoggerBase` state (`ArduinoLogger.h`), instantiated with the
`CircularLogBufferLogger` strategy (`CircularBufferLogger.h`): `flush_`
drains the ring buffer to the console sink via `_putchar`, `log_putc` is
`log_buffer_.put(c)`.  `sink` collects the bytes emitted by `flush_`;
`console` collects the bytes echoed by `print()` when `echo_` is set.
`level` is the `log_level_e` ordinal (`off = 0` … `debug = 5`). -/
structure Logger where
  enabled : Bool
  autoFlush : Bool
  overrunOccurred : Bool
  level : Nat
  echo : Bool
  buf : CircularBuffer
  sink : List Nat
  console : List Nat
deriving DecidableEq

namespace Logger

/-- `has_overrun()`. -/
def hasOverrun (st : Logger) : Bool := st.overrunOccurred

/-- `echo(bool en)`: stores `en`, returning the prior setting. -/
def echoSet (st : Logger) (en : Bool) : Bool × Logger :=
  (st.echo, { st with echo := en })

/-- `auto_flush(bool enabled)`: stores the setting, returning the prior one. -/
def autoFlushSet (st : Logger) (en : Bool) : Bool × Logger :=
  (st.autoFlush, { st with autoFlush := en })

/-- `CircularLogBufferLogger::log_putc(char c)`: `log_buffer_.put(c)`. -/
def logPutc (st : Logger) (c : Nat) : Logger :=
  { st with buf := st.buf.putD c }

/-- `LoggerBase::log_add_char_to_buffer(char c)`, parametrized by the `flush`
routine it may re-enter: when the internal buffer is at capacity it either
auto-flushes or latches `overrun_occurred_`, then always forwards the byte to
`log_putc`. -/
def addCharWith (flushFn : Logger → Logger) (st : Logger) (c : Nat) : Logger :=
  let st1 :=
    if st.buf.size = st.buf.capacity then
      if st.autoFlush then flushFn st else { st with overrunOccurred := true }
    else
      st
  st1.logPutc c

/-- `LoggerBase::print(...)`, parametrized like `addCharWith`.  `msg` is the
rendered byte stream delivered by `fctprintf` (format rendering is opaque to
the core); each byte goes through `log_add_char_to_buffer`, and the same
bytes are echoed to the console when `echo_` is set. -/
def printWith (flushFn : Logger → Logger) (st : Logger) (msg : List Nat) : Logger :=
  let st1 := msg.foldl (addCharWith flushFn) st
  if st1.echo then { st1 with console := st1.console ++ msg } else st1

/-- `LoggerBase::log(l, fmt, ...)`, parametrized like `addCharWith`: no-op
unless `enabled_ && l <= level_`; otherwise renders the level marker, the
custom prefix and the body (merged here into one byte stream) via `print`. -/
def logWith (flushFn : Logger → Logger) (st : Logger) (l : Nat) (msg : List Nat) : Logger :=
  if st.enabled ∧ l ≤ st.level then printWith flushFn st msg else st

/-- `CircularLogBufferLogger::flush_()`: `while(!log_buffer_.empty())
_putchar(log_buffer_.get());` — the drained bytes are appended to the sink. -/
def flushSink (st : Logger) : Logger :=
  let r := st.buf.drain
  { st with buf := r.2, sink := st.sink ++ r.1 }

/-- The rendered bytes of the synthetic overrun record
`critical("---Log buffer overrun detected---\n")`: the critical marker
`"<!> "` followed by the message text. -/
def overrunMsg : List Nat :=
  [60, 33, 62, 32, 45, 45, 45, 76, 111, 103, 32, 98, 117, 102, 102, 101, 114,
   32, 111, 118, 101, 114, 114, 117, 110, 32, 100, 101, 116, 101, 99, 116,
   101, 100, 45, 45, 45, 10]

/-- `LoggerBase::flush()`: when the internal buffer is non-empty, run
`flush_()`; if an overrun was recorded, append the synthetic critical record
and run `flush_()` again; finally clear `overrun_occurred_`.  The fuel bounds
the re-entrancy depth of `flush()` through `log_add_char_to_buffer`
(auto-flush during the overrun record's rendering). -/
def flushF : Nat → Logger → Logger
  | 0, st => st
  | fuel + 1, st =>
    if 0 < st.buf.size then
      let st1 := flushSink st
      let st2 :=
        if st1.overrunOccurred then
          flushSink (logWith (flushF fuel) st1 1 overrunMsg)
        else st1
      { st2 with overrunOccurred := false }
    else st

/-- `log_add_char_to_buffer` re-entering the real `flush` at the given fuel. -/
def addCharF (fuel : Nat) : Logger → Nat → Logger :=
  addCharWith (flushF fuel)

/-- `LoggerBase::log_interrupt(l, fmt, ...)`: when the record passes the
filter, auto-flush and echo are saved and forced off, the rendered bytes
(level marker, custom prefix and body merged into `msg`) are pushed through
`print`, and the prior settings are restored. -/
def logInterruptF (fuel : Nat) (st : Logger) (l : Nat) (msg : List Nat) : Logger :=
  if st.enabled ∧ l ≤ st.level then
    let saveFlush := (st.autoFlushSet false).1
    let st1 := (st.autoFlushSet false).2
    let saveEcho := (st1.echoSet false).1
    let st2 := (st1.echoSet false).2
    let st3 := printWith (flushF fuel) st2 msg
    let st4 := (st3.autoFlushSet saveFlush).2
    (st4.echoSet saveEcho).2
  else st

end Logger

/-- Wrapped-index arithmetic: a modulus applied to an index below `2 * n`
reduces to at most one subtraction. -/
theorem modWrapCases {a n : Nat} (_hn : 0 < n) (h : a < 2 * n) :
    a % n = if a < n then a else a - n := by
  split
  · exact Nat.mod_eq_of_lt (by assumption)
  · rw [Nat.mod_eq_sub_mod (by omega)]
    exact Nat.mod_eq_of_lt (by omega)

namespace CircularBuffer

variable {b : CircularBuffer}

theorem maxSize_pos (hb : b.Inv) : 0 < b.maxSize := by
  rcases hb with ⟨h1, -, -, -⟩
  omega

theorem size_le (hb : b.Inv) : b.size ≤ b.maxSize := by
  rcases hb with ⟨h1, h2, -, -⟩
  cases hf : b.full
  · simp only [size, hf, Bool.not_false, if_true]
    split <;> omega
  · simp [size, hf]

theorem full_iff_size (hb : b.Inv) : b.full = true ↔ b.size = b.maxSize := by
  rcases hb with ⟨h1, h2, -, -⟩
  cases hf : b.full
  · simp only [size, hf, Bool.not_false, if_true]
    constructor
    · intro h
      exact absurd h (by simp)
    · intro h
      exfalso
      rcases Nat.lt_or_ge b.head b.tail with hlt | hge
      · rw [if_neg (by omega)] at h
        omega
      · rw [if_pos (by omega)] at h
        omega
  · simp [size, hf]

theorem head_eq_mod (hb : b.Inv) : b.head = (b.tail + b.size) % b.maxSize := by
  obtain ⟨h1, h2, -, h4⟩ := hb
  cases hf : b.full
  · have hs : b.size = if b.head ≥ b.tail then b.head - b.tail
        else b.maxSize + b.head - b.tail := by
      simp [size, hf]
    rw [hs]
    split
    · rw [Nat.mod_eq_of_lt (by omega)]
      omega
    · rw [modWrapCases (by omega) (by omega)]
      split <;> omega
  · have hs : b.size = b.maxSize := by simp [size, hf]
    have he := h4 hf
    rw [hs, modWrapCases (by omega) (by omega)]
    split <;> omega

theorem length_toList (hb : b.Inv) : (toList b).length = b.size := by
  have h5 := size_le hb
  obtain ⟨h1, h2, h3, -⟩ := hb
  simp only [toList, List.length_take, List.length_append, List.length_drop]
  omega

theorem toList_eq_nil (hb : b.Inv) (h : b.size = 0) : toList b = [] :=
  List.eq_nil_of_length_eq_zero (by rw [length_toList hb, h])

theorem toList_getD (hb : b.Inv) (i : Nat) (hi : i < b.size) :
    (toList b).getD i 0 = b.buf.getD ((b.tail + i) % b.maxSize) 0 := by
  have h5 := size_le hb
  obtain ⟨h1, h2, h3, h4⟩ := hb
  have hdl : (b.buf.drop b.tail).length = b.maxSize - b.tail := by
    rw [List.length_drop, h3]
  have hmod : (b.tail + i) % b.maxSize =
      if b.tail + i < b.maxSize then b.tail + i else b.tail + i - b.maxSize :=
    modWrapCases (by omega) (by omega)
  simp only [toList]
  rw [List.getD_eq_getElem?_getD, List.getD_eq_getElem?_getD, hmod,
    List.getElem?_take, if_pos hi, List.getElem?_append, hdl]
  by_cases hc : b.tail + i < b.maxSize
  · rw [if_pos (by omega : i < b.maxSize - b.tail), List.getElem?_drop, if_pos hc]
  · rw [if_neg (by omega : ¬ i < b.maxSize - b.tail), if_neg hc, List.getElem?_take,
      if_pos (by omega : i - (b.maxSize - b.tail) < b.tail),
      show i - (b.maxSize - b.tail) = b.tail + i - b.maxSize from by omega]

end CircularBuffer

namespace CircularBuffer

variable {b : CircularBuffer}

theorem put_eq_putD (hn : b.maxSize ≠ 0) (x : Nat) : b.put x = some (b.putD x) := by
  simp [putD, put, hn]

theorem putD_eq (hn : b.maxSize ≠ 0) (x : Nat) :
    b.putD x = { b with
      buf := b.buf.set b.head x,
      tail := if b.full then (b.tail + 1) % b.maxSize else b.tail,
      head := (b.head + 1) % b.maxSize,
      full := ((b.head + 1) % b.maxSize) ==
        (if b.full then (b.tail + 1) % b.maxSize else b.tail) } := by
  simp [putD, put, hn]

theorem size_eq (b : CircularBuffer) : b.size =
    if b.full then b.maxSize
    else if b.head ≥ b.tail then b.head - b.tail else b.maxSize + b.head - b.tail := by
  cases hf : b.full <;> simp [size, hf]

theorem putD_inv (hb : b.Inv) (x : Nat) : (b.putD x).Inv := by
  have hn := maxSize_pos hb
  obtain ⟨h1, h2, h3, h4⟩ := hb
  rw [putD_eq (by omega)]
  refine ⟨Nat.mod_lt _ (by omega), ?_, ?_, ?_⟩
  · show (if b.full then (b.tail + 1) % b.maxSize else b.tail) < b.maxSize
    split
    · exact Nat.mod_lt _ (by omega)
    · exact h2
  · show (b.buf.set b.head x).length = b.maxSize
    rw [List.length_set, h3]
  · intro hfe
    exact eq_of_beq hfe

end CircularBuffer

namespace CircularBuffer

variable {b : CircularBuffer}

theorem size_putD (hb : b.Inv) (x : Nat) :
    (b.putD x).size = min (b.size + 1) b.maxSize := by
  have hn := maxSize_pos hb
  have hs := size_le hb
  have hsz := size_eq b
  obtain ⟨h1, h2, h3, h4⟩ := hb
  rw [putD_eq (by omega), size_eq]
  simp only [beq_iff_eq]
  cases hf : b.full
  · rw [hf] at hsz
    simp only [Bool.false_eq_true, if_false] at hsz ⊢
    rcases Nat.lt_or_ge (b.head + 1) b.maxSize with hh | hh
    · rw [Nat.mod_eq_of_lt hh]
      split at hsz <;> split <;> first | omega | (split <;> omega)
    · have he : (b.head + 1) % b.maxSize = 0 := by
        rw [modWrapCases (by omega) (by omega)]
        split <;> omega
      rw [he]
      split at hsz <;> split <;> first | omega | (split <;> omega)
  · rw [hf] at hsz
    simp only [if_true] at hsz ⊢
    have he := h4 hf
    have e1 : (b.tail + 1) % b.maxSize =
        if b.tail + 1 < b.maxSize then b.tail + 1 else 0 := by
      rw [modWrapCases (by omega) (by omega)]
      split <;> omega
    have e2 : (b.head + 1) % b.maxSize =
        if b.head + 1 < b.maxSize then b.head + 1 else 0 := by
      rw [modWrapCases (by omega) (by omega)]
      split <;> omega
    rw [e1, e2]
    split <;> split <;> first | omega | (split <;> omega)

end CircularBuffer

namespace CircularBuffer

variable {b : CircularBuffer}

theorem toList_putD (hb : b.Inv) (x : Nat) :
    toList (b.putD x) = (toList b ++ [x]).drop (b.size + 1 - b.maxSize) := by
  have hb' := putD_inv hb x
  have hn := maxSize_pos hb
  have hs := size_le hb
  have hhead := head_eq_mod hb
  have hfs := full_iff_size hb
  have hsz' := size_putD hb x
  have hlt := length_toList hb
  have hlt' := length_toList hb'
  obtain ⟨h1, h2, h3, h4⟩ := hb
  have hset : ∀ j, j < b.maxSize →
      (b.buf.set b.head x).getD j 0 = if j = b.head then x else b.buf.getD j 0 := by
    intro j hj
    rw [List.getD_eq_getElem?_getD, List.getElem?_set]
    by_cases hjh : b.head = j
    · rw [if_pos hjh, if_pos (by omega), if_pos hjh.symm]
      simp
    · rw [if_neg hjh, if_neg (fun hh => hjh hh.symm), ← List.getD_eq_getElem?_getD]
  have hR : ∀ i, i < (b.putD x).size →
      ((toList b ++ [x]).drop (b.size + 1 - b.maxSize)).getD i 0
      = if b.size + 1 - b.maxSize + i < b.size
          then b.buf.getD ((b.tail + (b.size + 1 - b.maxSize + i)) % b.maxSize) 0
          else x := by
    intro i hi
    rw [List.getD_eq_getElem?_getD, List.getElem?_drop, List.getElem?_append, hlt]
    rw [hsz'] at hi
    split
    · rw [← List.getD_eq_getElem?_getD, toList_getD ⟨h1, h2, h3, h4⟩ _ (by assumption)]
    · rw [show b.size + 1 - b.maxSize + i - b.size = 0 from by omega]
      simp
  apply List.ext_getElem
  · rw [hlt', hsz']
    simp only [List.length_drop, List.length_append, List.length_singleton, hlt]
    omega
  intro i hi1 hi2
  have hi : i < (b.putD x).size := by rw [← hlt']; exact hi1
  rw [← List.getD_eq_getElem _ 0 hi1, ← List.getD_eq_getElem _ 0 hi2]
  have hLbuf : (b.putD x).buf = b.buf.set b.head x := by rw [putD_eq (by omega)]
  have hLtail : (b.putD x).tail
      = if b.full then (b.tail + 1) % b.maxSize else b.tail := by
    rw [putD_eq (by omega)]
  have hLmax : (b.putD x).maxSize = b.maxSize := by rw [putD_eq (by omega)]
  rw [toList_getD hb' i hi, hLbuf, hLtail, hLmax, hR i hi]
  rw [hsz'] at hi
  cases hf : b.full
  · simp only [Bool.false_eq_true, if_false]
    have hsm : b.size < b.maxSize := by
      rcases Nat.lt_or_ge b.size b.maxSize with h | h
      · exact h
      · exact absurd (hfs.mpr (by omega)) (by rw [hf]; simp)
    have hk : b.size + 1 - b.maxSize = 0 := by omega
    simp only [hk, Nat.zero_add]
    rw [hset _ (Nat.mod_lt _ (by omega))]
    have hmm : (b.tail + i) % b.maxSize = b.head ↔ i = b.size := by
      rw [hhead, modWrapCases (by omega : (0:Nat) < b.maxSize) (by omega),
        modWrapCases (by omega : (0:Nat) < b.maxSize) (by omega)]
      split <;> split <;> omega
    by_cases hcase : i < b.size
    · rw [if_pos hcase, if_neg (by rw [hmm]; omega)]
    · rw [if_neg hcase, if_pos (by rw [hmm]; omega)]
  · simp only [if_true]
    have he := h4 hf
    have hsmax : b.size = b.maxSize := hfs.mp hf
    have hk : b.size + 1 - b.maxSize = 1 := by omega
    simp only [hk]
    rw [Nat.mod_add_mod]
    rw [hset _ (Nat.mod_lt _ (by omega))]
    have hmm : (b.tail + 1 + i) % b.maxSize = b.head ↔ i = b.maxSize - 1 := by
      rw [he, modWrapCases (by omega : (0:Nat) < b.maxSize) (by omega)]
      split <;> omega
    by_cases hcase : 1 + i < b.size
    · rw [if_pos hcase, if_neg (by rw [hmm]; omega), Nat.add_assoc]
    · rw [if_neg hcase, if_pos (by rw [hmm]; omega)]

end CircularBuffer

namespace CircularBuffer

variable {b : CircularBuffer}

theorem maxSize_putD (b : CircularBuffer) (x : Nat) : (b.putD x).maxSize = b.maxSize := by
  by_cases h : b.maxSize = 0
  · simp [putD, put, h]
  · rw [putD_eq h]

theorem mkBuffer_inv {n : Nat} (hn : 0 < n) : (mkBuffer n).Inv :=
  ⟨hn, hn, by simp [mkBuffer], by simp [mkBuffer]⟩

theorem size_mkBuffer (n : Nat) : (mkBuffer n).size = 0 := by
  simp [mkBuffer, size]

theorem toList_mkBuffer (n : Nat) : toList (mkBuffer n) = [] := by
  simp [toList, mkBuffer, size]

theorem size_reset (b : CircularBuffer) : b.reset.size = 0 := by
  simp [reset, size]

theorem reset_inv (hb : b.Inv) : b.reset.Inv := by
  obtain ⟨h1, h2, h3, h4⟩ := hb
  exact ⟨h2, h2, h3, by simp [reset]⟩

theorem size_pos_of_not_empty (hb : b.Inv) (hne : b.empty = false) : 0 < b.size := by
  have hn := maxSize_pos hb
  obtain ⟨h1, h2, h3, h4⟩ := hb
  cases hf : b.full
  · rw [empty, hf] at hne
    simp only [Bool.not_false, Bool.true_and] at hne
    have hht : b.head ≠ b.tail := by
      intro h
      rw [h] at hne
      simp at hne
    rw [size_eq, hf]
    simp only [Bool.false_eq_true, if_false]
    split <;> omega
  · rw [size_eq, hf]
    simpa using hn

theorem empty_false_of_size (hb : b.Inv) (hpos : 0 < b.size) : b.empty = false := by
  have hn := maxSize_pos hb
  obtain ⟨h1, h2, h3, h4⟩ := hb
  cases hf : b.full
  · rw [size_eq, hf] at hpos
    simp only [Bool.false_eq_true, if_false] at hpos
    rw [empty, hf]
    simp only [Bool.not_false, Bool.true_and]
    rw [beq_eq_false_iff_ne]
    intro h
    rw [h] at hpos
    simp at hpos
  · simp [empty, hf]

theorem get_eq (hne : b.empty = false) :
    b.get = (b.buf.getD b.tail 0,
      { b with full := false, tail := (b.tail + 1) % b.maxSize }) := by
  simp [get, hne]

theorem get_inv (hb : b.Inv) (hne : b.empty = false) : (b.get).2.Inv := by
  have hn := maxSize_pos hb
  obtain ⟨h1, h2, h3, h4⟩ := hb
  rw [get_eq hne]
  exact ⟨h1, Nat.mod_lt _ (by omega), h3, by simp⟩

theorem size_get (hb : b.Inv) (hne : b.empty = false) :
    (b.get).2.size = b.size - 1 := by
  have hn := maxSize_pos hb
  have hpos := size_pos_of_not_empty hb hne
  have hsz := size_eq b
  obtain ⟨h1, h2, h3, h4⟩ := hb
  rw [get_eq hne, size_eq]
  simp only [Bool.false_eq_true, if_false]
  have e1 : (b.tail + 1) % b.maxSize =
      if b.tail + 1 < b.maxSize then b.tail + 1 else 0 := by
    rw [modWrapCases (by omega) (by omega)]
    split <;> omega
  rw [e1]
  cases hf : b.full
  · rw [hf] at hsz
    simp only [Bool.false_eq_true, if_false] at hsz
    split at hsz <;> split <;> first | omega | (split <;> omega)
  · rw [hf] at hsz
    simp only [if_true] at hsz
    have he := h4 hf
    split <;> first | omega | (split <;> omega)

theorem toList_get (hb : b.Inv) (hne : b.empty = false) :
    toList b = (b.get).1 :: toList (b.get).2 := by
  have hn := maxSize_pos hb
  have hpos := size_pos_of_not_empty hb hne
  have hb' := get_inv hb hne
  have hlt := length_toList hb
  have hlt' := length_toList hb'
  have hsg := size_get hb hne
  have hLbuf : (b.get).2.buf = b.buf := by rw [get_eq hne]
  have hLtail : (b.get).2.tail = (b.tail + 1) % b.maxSize := by rw [get_eq hne]
  have hLmax : (b.get).2.maxSize = b.maxSize := by rw [get_eq hne]
  have hv : (b.get).1 = b.buf.getD b.tail 0 := by rw [get_eq hne]
  obtain ⟨h1, h2, h3, h4⟩ := hb
  apply List.ext_getElem
  · simp only [List.length_cons, hlt, hlt', hsg]
    omega
  intro i hi1 hi2
  rw [← List.getD_eq_getElem _ 0 hi1, ← List.getD_eq_getElem _ 0 hi2]
  have hi : i < b.size := by rw [← hlt]; exact hi1
  rw [toList_getD ⟨h1, h2, h3, h4⟩ i hi]
  cases i with
  | zero =>
    simp only [List.getD_cons_zero, hv]
    rw [Nat.add_zero, Nat.mod_eq_of_lt h2]
  | succ j =>
    simp only [List.getD_cons_succ]
    have hj : j < (b.get).2.size := by omega
    rw [toList_getD hb' j hj, hLbuf, hLtail, hLmax, Nat.mod_add_mod]
    rw [show b.tail + (j + 1) = b.tail + 1 + j from by omega]

end CircularBuffer

namespace CircularBuffer

variable {b : CircularBuffer}

theorem drainAux_spec : ∀ (fuel : Nat) (b : CircularBuffer), b.Inv → b.size = fuel →
    (drainAux fuel b).1 = toList b ∧ (drainAux fuel b).2.Inv ∧
    (drainAux fuel b).2.size = 0 ∧ (drainAux fuel b).2.maxSize = b.maxSize ∧
    (drainAux fuel b).2.buf = b.buf := by
  intro fuel
  induction fuel with
  | zero =>
    intro b hb h0
    exact ⟨(toList_eq_nil hb h0).symm, hb, h0, rfl, rfl⟩
  | succ n ih =>
    intro b hb hsz
    have hne : b.empty = false := empty_false_of_size hb (by omega)
    have hb' := get_inv hb hne
    have hbuf : (b.get).2.buf = b.buf := by rw [get_eq hne]
    have hmax : (b.get).2.maxSize = b.maxSize := by rw [get_eq hne]
    have ihs := ih (b.get).2 hb' (by rw [size_get hb hne]; omega)
    simp only [drainAux, hne, Bool.false_eq_true, if_false]
    refine ⟨?_, ihs.2.1, ihs.2.2.1, by rw [ihs.2.2.2.1, hmax], by rw [ihs.2.2.2.2, hbuf]⟩
    rw [ihs.1, ← toList_get hb hne]

theorem drain_spec (hb : b.Inv) :
    (b.drain).1 = toList b ∧ (b.drain).2.Inv ∧ (b.drain).2.size = 0 ∧
    (b.drain).2.maxSize = b.maxSize ∧ (b.drain).2.buf = b.buf :=
  drainAux_spec b.size b hb rfl

theorem putList_spec : ∀ (xs : List Nat) (b : CircularBuffer), b.Inv →
    (putList b xs).Inv ∧ (putList b xs).maxSize = b.maxSize ∧
    toList (putList b xs) = (toList b ++ xs).drop (b.size + xs.length - b.maxSize) := by
  intro xs
  induction xs with
  | nil =>
    intro b hb
    have hs := size_le hb
    refine ⟨hb, rfl, ?_⟩
    rw [show b.size + [].length - b.maxSize = 0 from by simp; omega]
    simp [putList]
  | cons x xs ih =>
    intro b hb
    have hs := size_le hb
    have hlt := length_toList hb
    have hb' := putD_inv hb x
    have h := ih (b.putD x) hb'
    have hstep : putList b (x :: xs) = putList (b.putD x) xs := rfl
    refine ⟨hstep ▸ h.1, by rw [hstep, h.2.1, maxSize_putD], ?_⟩
    rw [hstep, h.2.2, toList_putD hb x, size_putD hb x, maxSize_putD]
    rw [← List.drop_append_of_le_length
      (by simp only [List.length_append, List.length_singleton, hlt]; omega)]
    rw [List.drop_drop, List.append_assoc, List.singleton_append]
    simp only [List.length_cons, maxSize_putD]
    congr 1
    omega

theorem size_putList (xs : List Nat) (hb : b.Inv) :
    (putList b xs).size = min (b.size + xs.length) b.maxSize := by
  have hs := size_le hb
  have h := putList_spec xs b hb
  rw [← length_toList h.1, h.2.2]
  simp only [List.length_drop, List.length_append, length_toList hb, h.2.1]
  omega

theorem putSeqM_eq : ∀ (xs : List Nat) (b : CircularBuffer), b.Inv →
    putSeqM b xs = some (putList b xs) := by
  intro xs
  induction xs with
  | nil =>
    intro b hb
    simp [putSeqM, putList]
  | cons x xs ih =>
    intro b hb
    have hn := maxSize_pos hb
    have hb' := putD_inv hb x
    simp only [putSeqM, List.foldlM_cons, put_eq_putD (by omega : b.maxSize ≠ 0) x,
      Option.bind_eq_bind, Option.some_bind]
    exact ih (b.putD x) hb'

end CircularBuffer

namespace CircularBuffer

variable {b : CircularBuffer}

theorem size_eq_length (hb : b.Inv) : b.size = (toList b).length :=
  (length_toList hb).symm

theorem size_mod_formula (hb : b.Inv) (hf : b.full = false) :
    b.size = (b.maxSize + b.head - b.tail) % b.maxSize := by
  have hn := maxSize_pos hb
  obtain ⟨h1, h2, h3, h4⟩ := hb
  rw [size_eq, hf, modWrapCases (by omega) (by omega)]
  simp only [Bool.false_eq_true, if_false]
  by_cases hht : b.head = b.tail
  · rw [hht]
    split <;> split <;> omega
  · split <;> split <;> omega

end CircularBuffer

theorem applyOp_inv {b : CircularBuffer} (hb : b.Inv) (op : LogOp) :
    (applyOp b op).Inv ∧ (applyOp b op).maxSize = b.maxSize := by
  cases op with
  | put x => exact ⟨CircularBuffer.putD_inv hb x, CircularBuffer.maxSize_putD b x⟩
  | get =>
    cases he : b.empty
    · exact ⟨CircularBuffer.get_inv hb he,
        by show (b.get).2.maxSize = b.maxSize; rw [CircularBuffer.get_eq he]⟩
    · have : b.get = (0, b) := by simp [CircularBuffer.get, he]
      show (b.get).2.Inv ∧ (b.get).2.maxSize = b.maxSize
      rw [this]
      exact ⟨hb, rfl⟩
  | reset => exact ⟨CircularBuffer.reset_inv hb, rfl⟩

theorem runOps_inv : ∀ (ops : List LogOp) (b : CircularBuffer), b.Inv →
    (runOps b ops).Inv ∧ (runOps b ops).maxSize = b.maxSize := by
  intro ops
  induction ops with
  | nil => exact fun b hb => ⟨hb, rfl⟩
  | cons op ops ih =>
    intro b hb
    have h1 := applyOp_inv hb op
    have h2 := ih (applyOp b op) h1.1
    exact ⟨h2.1, by rw [show runOps b (op :: ops) = runOps (applyOp b op) ops from rfl,
      h2.2, h1.2]⟩

/-- C8: every sequence of `put` / `get` / `reset` operations from a freshly
constructed buffer of capacity `cap ≥ 1` preserves the ring-buffer
invariants: `head` and `tail` stay below `cap`, `full` is set exactly when
the buffer holds `cap` live items, and `size()` is the live-item count,
computed as `cap` when full and `(head - tail) mod cap` (with `head < tail`
handled by adding `cap` before the mod) otherwise. -/
theorem C8_ring_buffer_invariants (cap : Nat) (ops : List LogOp) (hcap : 1 ≤ cap) :
    (runOps (CircularBuffer.mkBuffer cap) ops).head < cap ∧
    (runOps (CircularBuffer.mkBuffer cap) ops).tail < cap ∧
    ((runOps (CircularBuffer.mkBuffer cap) ops).full = true ↔
      ((runOps (CircularBuffer.mkBuffer cap) ops).toList).length = cap) ∧
    (runOps (CircularBuffer.mkBuffer cap) ops).size =
      ((runOps (CircularBuffer.mkBuffer cap) ops).toList).length ∧
    ((runOps (CircularBuffer.mkBuffer cap) ops).full = true →
      (runOps (CircularBuffer.mkBuffer cap) ops).size = cap) ∧
    ((runOps (CircularBuffer.mkBuffer cap) ops).full = false →
      (runOps (CircularBuffer.mkBuffer cap) ops).size =
        (cap + (runOps (CircularBuffer.mkBuffer cap) ops).head -
          (runOps (CircularBuffer.mkBuffer cap) ops).tail) % cap) := by
  have h := runOps_inv ops (CircularBuffer.mkBuffer cap) (CircularBuffer.mkBuffer_inv hcap)
  have hmax : (runOps (CircularBuffer.mkBuffer cap) ops).maxSize = cap := h.2
  obtain ⟨hb, -⟩ := h
  refine ⟨by have := hb.1; omega, by have := hb.2.1; omega, ?_, ?_, ?_, ?_⟩
  · constructor
    · intro hf
      have e1 := (CircularBuffer.full_iff_size hb).mp hf
      have e2 := CircularBuffer.length_toList hb
      omega
    · intro hl
      exact (CircularBuffer.full_iff_size hb).mpr
        (by have := CircularBuffer.length_toList hb; omega)
  · exact CircularBuffer.size_eq_length hb
  · intro hf
    have := (CircularBuffer.full_iff_size hb).mp hf
    omega
  · intro hf
    have hm := CircularBuffer.size_mod_formula hb hf
    rw [hmax] at hm
    exact hm

/-- C8 witness: a concrete run over capacity 3 exercising put, get, reset
and overwrite. -/
theorem C8_ring_buffer_invariants_witness :
    1 ≤ 3 ∧
    ((runOps (CircularBuffer.mkBuffer 3)
        [.put 1, .put 2, .put 3, .put 4, .get, .reset, .put 5]).head < 3 ∧
      (runOps (CircularBuffer.mkBuffer 3)
        [.put 1, .put 2, .put 3, .put 4, .get, .reset, .put 5]).tail < 3 ∧
      ((runOps (CircularBuffer.mkBuffer 3)
        [.put 1, .put 2, .put 3, .put 4, .get, .reset, .put 5]).full = true ↔
        ((runOps (CircularBuffer.mkBuffer 3)
          [.put 1, .put 2, .put 3, .put 4, .get, .reset, .put 5]).toList).length = 3) ∧
      (runOps (CircularBuffer.mkBuffer 3)
        [.put 1, .put 2, .put 3, .put 4, .get, .reset, .put 5]).size =
        ((runOps (CircularBuffer.mkBuffer 3)
          [.put 1, .put 2, .put 3, .put 4, .get, .reset, .put 5]).toList).length ∧
      ((runOps (CircularBuffer.mkBuffer 3)
        [.put 1, .put 2, .put 3, .put 4, .get, .reset, .put 5]).full = true →
        (runOps (CircularBuffer.mkBuffer 3)
          [.put 1, .put 2, .put 3, .put 4, .get, .reset, .put 5]).size = 3) ∧
      ((runOps (CircularBuffer.mkBuffer 3)
        [.put 1, .put 2, .put 3, .put 4, .get, .reset, .put 5]).full = false →
        (runOps (CircularBuffer.mkBuffer 3)
          [.put 1, .put 2, .put 3, .put 4, .get, .reset, .put 5]).size =
          (3 + (runOps (CircularBuffer.mkBuffer 3)
            [.put 1, .put 2, .put 3, .put 4, .get, .reset, .put 5]).head -
            (runOps (CircularBuffer.mkBuffer 3)
              [.put 1, .put 2, .put 3, .put 4, .get, .reset, .put 5]).tail) % 3)) :=
  ⟨by decide, C8_ring_buffer_invariants 3 _ (by decide)⟩

/-- C4: with compile-time capacity 0, `size()` and `capacity()` do return 0,
but `put` is not a supported no-op: it stores through a zero-length array and
computes `(head_ + 1) % 0` — undefined behavior in C++ (division by zero) —
modeled as the fault value `none`.  This contradicts the claim (and the
header comment of `CircularBufferLogger.h`, which advertises `TBufferSize = 0`
as a "disable logging" configuration). -/
theorem C4_zero_capacity_put_faults :
    CircularBuffer.put (CircularBuffer.mkBuffer 0) 97 = none ∧
    (CircularBuffer.mkBuffer 0).size = 0 ∧
    (CircularBuffer.mkBuffer 0).capacity = 0 :=
  ⟨rfl, rfl, rfl⟩

/-- C6: pushing `xs` with `xs.length ≤ cap` into a fresh buffer of capacity
`cap ≥ 1` never faults, yields `size() = xs.length`, never overwrites (the
buffer is not yet full before each of the puts), stores exactly `xs` in
order, and a following sequence of `get()` calls (the drain loop) returns
`xs` in FIFO order. -/
theorem C6_fifo_no_overwrite (cap : Nat) (xs : List Nat)
    (hcap : 1 ≤ cap) (hlen : xs.length ≤ cap) :
    CircularBuffer.putSeqM (CircularBuffer.mkBuffer cap) xs =
      some (CircularBuffer.putList (CircularBuffer.mkBuffer cap) xs) ∧
    (CircularBuffer.putList (CircularBuffer.mkBuffer cap) xs).size = xs.length ∧
    (CircularBuffer.putList (CircularBuffer.mkBuffer cap) xs).toList = xs ∧
    (∀ k, k < xs.length →
      (CircularBuffer.putList (CircularBuffer.mkBuffer cap) (xs.take k)).full = false) ∧
    ((CircularBuffer.putList (CircularBuffer.mkBuffer cap) xs).drain).1 = xs := by
  have hmk := CircularBuffer.mkBuffer_inv hcap
  have hspec := CircularBuffer.putList_spec xs (CircularBuffer.mkBuffer cap) hmk
  have htl : (CircularBuffer.putList (CircularBuffer.mkBuffer cap) xs).toList = xs := by
    rw [hspec.2.2, CircularBuffer.toList_mkBuffer, List.nil_append,
      show (CircularBuffer.mkBuffer cap).size + xs.length -
          (CircularBuffer.mkBuffer cap).maxSize = 0 from by
        rw [CircularBuffer.size_mkBuffer]
        show 0 + xs.length - cap = 0
        omega,
      List.drop_zero]
  refine ⟨CircularBuffer.putSeqM_eq xs _ hmk, ?_, htl, ?_, ?_⟩
  · rw [CircularBuffer.size_putList xs hmk, CircularBuffer.size_mkBuffer]
    show min (0 + xs.length) cap = xs.length
    omega
  · intro k hk
    have hins := CircularBuffer.putList_spec (xs.take k) (CircularBuffer.mkBuffer cap) hmk
    have hkl : (xs.take k).length = k := by
      rw [List.length_take]
      exact Nat.min_eq_left (by omega)
    have hszk := CircularBuffer.size_putList (xs.take k) hmk
    rw [CircularBuffer.size_mkBuffer, hkl] at hszk
    have hlt : (CircularBuffer.putList (CircularBuffer.mkBuffer cap) (xs.take k)).size
        < cap := by
      rw [hszk, show (CircularBuffer.mkBuffer cap).maxSize = cap from rfl, Nat.zero_add,
        Nat.min_eq_left (by omega : k ≤ cap)]
      omega
    cases hf : (CircularBuffer.putList (CircularBuffer.mkBuffer cap) (xs.take k)).full
    · rfl
    · exfalso
      have := (CircularBuffer.full_iff_size hins.1).mp hf
      rw [hins.2.1, show (CircularBuffer.mkBuffer cap).maxSize = cap from rfl] at this
      omega
  · rw [(CircularBuffer.drain_spec hspec.1).1, htl]

/-- C6 witness: capacity 3, two pushes. -/
theorem C6_fifo_no_overwrite_witness :
    (1 ≤ 3 ∧ [10, 20].length ≤ 3) ∧
    (CircularBuffer.putSeqM (CircularBuffer.mkBuffer 3) [10, 20] =
      some (CircularBuffer.putList (CircularBuffer.mkBuffer 3) [10, 20]) ∧
    (CircularBuffer.putList (CircularBuffer.mkBuffer 3) [10, 20]).size = [10, 20].length ∧
    (CircularBuffer.putList (CircularBuffer.mkBuffer 3) [10, 20]).toList = [10, 20] ∧
    (∀ k, k < [10, 20].length →
      (CircularBuffer.putList (CircularBuffer.mkBuffer 3) ([10, 20].take k)).full = false) ∧
    ((CircularBuffer.putList (CircularBuffer.mkBuffer 3) [10, 20]).drain).1 = [10, 20]) :=
  ⟨⟨by decide, by decide⟩, C6_fifo_no_overwrite 3 [10, 20] (by decide) (by decide)⟩

/-- C7: once the buffer has filled (any prefix of length at least `cap`),
`size() = capacity()` holds at every point, and the final contents are the
most recently pushed `cap` items in push order — the oldest-pushed items are
exactly the ones evicted. -/
theorem C7_overwrite_drop_oldest (cap : Nat) (xs : List Nat) (hcap : 1 ≤ cap) :
    (∀ k, cap ≤ k → k ≤ xs.length →
      (CircularBuffer.putList (CircularBuffer.mkBuffer cap) (xs.take k)).size = cap) ∧
    (CircularBuffer.putList (CircularBuffer.mkBuffer cap) xs).toList =
      xs.drop (xs.length - cap) := by
  have hmk := CircularBuffer.mkBuffer_inv hcap
  have hspec := CircularBuffer.putList_spec xs (CircularBuffer.mkBuffer cap) hmk
  constructor
  · intro k hk1 hk2
    have hszk := CircularBuffer.size_putList (xs.take k) hmk
    rw [CircularBuffer.size_mkBuffer, List.length_take] at hszk
    rw [hszk]
    show min (0 + min k xs.length) cap = cap
    omega
  · rw [hspec.2.2, CircularBuffer.toList_mkBuffer, List.nil_append,
      show (CircularBuffer.mkBuffer cap).size + xs.length -
          (CircularBuffer.mkBuffer cap).maxSize = xs.length - cap from by
        rw [CircularBuffer.size_mkBuffer]
        show 0 + xs.length - cap = xs.length - cap
        omega]

/-- C7 witness: capacity 2, three pushes — the oldest item is evicted. -/
theorem C7_overwrite_drop_oldest_witness :
    1 ≤ 2 ∧
    ((∀ k, 2 ≤ k → k ≤ [5, 6, 7].length →
      (CircularBuffer.putList (CircularBuffer.mkBuffer 2) ([5, 6, 7].take k)).size = 2) ∧
    (CircularBuffer.putList (CircularBuffer.mkBuffer 2) [5, 6, 7]).toList =
      [5, 6, 7].drop ([5, 6, 7].length - 2)) :=
  ⟨by decide, C7_overwrite_drop_oldest 2 [5, 6, 7] (by decide)⟩

namespace CircularBuffer

variable {b : CircularBuffer}

theorem capacity_def (b : CircularBuffer) : b.capacity = b.maxSize := rfl

theorem take_full_append {lA lB : List Nat} {wA wB : Nat}
    (hA : wA ≤ lA.length) (hB : wB ≤ lB.length)
    (hsum : lA.length + lB.length = wA + wB) :
    lA.take wA ++ lB.take wB = lA ++ lB := by
  have h : wA = lA.length ∧ wB = lB.length := by omega
  rw [h.1, h.2, List.take_length, List.take_length]

theorem seg_wrap (hb : b.Inv)
    (hw : b.head < b.tail ∨ (0 < b.tail ∧ b.size = b.capacity)) :
    ((b.buf.drop b.tail).take (b.capacity - b.tail)).length = b.maxSize - b.tail ∧
    (b.buf.take b.head).length = b.head ∧
    (b.maxSize - b.tail) + b.head = b.size ∧
    (b.buf.drop b.tail).take (b.capacity - b.tail) ++ b.buf.take b.head = toList b := by
  have hfs := full_iff_size hb
  have hn := maxSize_pos hb
  have hs := size_le hb
  obtain ⟨h1, h2, h3, h4⟩ := hb
  rw [capacity_def] at hw ⊢
  have hlA : (b.buf.drop b.tail).length = b.maxSize - b.tail := by
    rw [List.length_drop, h3]
  have hA : (b.buf.drop b.tail).take (b.maxSize - b.tail) = b.buf.drop b.tail :=
    List.take_of_length_le (by rw [hlA])
  have hlB : (b.buf.take b.head).length = b.head := by
    rw [List.length_take]
    exact Nat.min_eq_left (by omega)
  rcases hw with hlt | ⟨hpos, hsz⟩
  · have hnotfull : b.full = false := by
      cases hf : b.full
      · rfl
      · exact absurd (h4 hf) (by omega)
    have hsv : b.size = b.maxSize + b.head - b.tail := by
      rw [size_eq, hnotfull]
      simp only [Bool.false_eq_true, if_false]
      rw [if_neg (by omega)]
    refine ⟨by rw [hA, hlA], hlB, by omega, ?_⟩
    rw [hA, toList, List.take_append_eq_append_take,
      List.take_of_length_le
        (show (b.buf.drop b.tail).length ≤ b.size from by rw [hlA]; omega)]
    congr 1
    rw [hlA, List.take_take]
    congr 1
    omega
  · have hfull : b.full = true := hfs.mpr hsz
    have he := h4 hfull
    have hsv : b.size = b.maxSize := hfs.mp hfull
    refine ⟨by rw [hA, hlA], hlB, by omega, ?_⟩
    rw [hA, toList, hsv,
      List.take_of_length_le
        (show (b.buf.drop b.tail ++ b.buf.take b.tail).length ≤ b.maxSize from by
          rw [List.length_append, List.length_drop, List.length_take, h3]
          omega),
      he]

theorem seg_nowrap (hb : b.Inv)
    (hnw : ¬(b.head < b.tail ∨ (0 < b.tail ∧ b.size = b.capacity))) :
    ((b.buf.drop b.tail).take b.size).length = b.size ∧
    (b.buf.drop b.tail).take b.size = toList b := by
  have hfs := full_iff_size hb
  have hn := maxSize_pos hb
  have hs := size_le hb
  obtain ⟨h1, h2, h3, h4⟩ := hb
  rw [capacity_def] at hnw
  push_neg at hnw
  obtain ⟨hge, himp⟩ := hnw
  have hsmall : b.size ≤ b.maxSize - b.tail := by
    cases hf : b.full
    · have hv : b.size = b.head - b.tail := by
        rw [size_eq, hf]
        simp only [Bool.false_eq_true, if_false]
        rw [if_pos (by omega)]
      omega
    · have he := h4 hf
      have hsv := hfs.mp hf
      have ht0 : b.tail = 0 := by
        by_cases h0 : 0 < b.tail
        · exact absurd hsv (himp h0)
        · omega
      omega
  refine ⟨?_, ?_⟩
  · rw [List.length_take, List.length_drop, h3]
    exact Nat.min_eq_left hsmall
  · rw [toList, List.take_append_eq_append_take,
      show b.size - (b.buf.drop b.tail).length = 0 from by rw [List.length_drop, h3]; omega,
      List.take_zero, List.append_nil]

end CircularBuffer

/-- C1: for every ring-buffer state satisfying the buffer invariant (which
holds in every reachable state) with `size() > 0`, `SDFileLogger`'s
`writeBufferToSDFile` writes the buffered bytes in chronological order: on
wraparound (`head < tail`, or `tail > 0` with the buffer full) it writes
`storage[tail..capacity)` then `storage[0..head)`, otherwise the single
segment `storage[tail..tail+size)`; any successful return yields exactly the
logical contents `toList` (oldest to newest, no duplication) with the bytes
summed over the write calls equal to `size()` and the buffer reset to empty;
a summed-byte mismatch is a sink failure (`errorHalt`, modeled `none`); and a
sink that accepts every byte persists exactly `toList` and resets the
buffer. -/
theorem C1_sdfile_write_chronological (b : CircularBuffer) (acc : List Nat → Nat)
    (hb : b.Inv) (_hsz : 0 < b.size) (hacc : ∀ c, acc c ≤ c.length) :
    (∀ b' out, writeBufferToSDFile b acc = some (b', out) →
        out = b.toList ∧ b' = b.reset ∧ b'.size = 0 ∧ sdWriteCount b acc = b.size) ∧
    (writeBufferToSDFile b acc = none ↔ sdWriteCount b acc ≠ b.size) ∧
    writeBufferToSDFile b (fun c => c.length) = some (b.reset, b.toList) := by
  by_cases hw : b.head < b.tail ∨ (0 < b.tail ∧ b.size = b.capacity)
  · obtain ⟨hlA, hlB, hsum, hcontent⟩ := CircularBuffer.seg_wrap hb hw
    simp only [writeBufferToSDFile, sdWriteCount, if_pos hw]
    refine ⟨?_, ?_, ?_⟩
    · intro b' out h
      by_cases hc : acc ((b.buf.drop b.tail).take (b.capacity - b.tail)) +
          acc (b.buf.take b.head) = b.size
      · rw [if_pos hc] at h
        simp only [Option.some.injEq, Prod.mk.injEq] at h
        obtain ⟨hb', hout⟩ := h
        have hA := hacc ((b.buf.drop b.tail).take (b.capacity - b.tail))
        have hB := hacc (b.buf.take b.head)
        rw [hlA] at hA
        rw [hlB] at hB
        refine ⟨?_, hb'.symm, by rw [← hb', CircularBuffer.size_reset], by omega⟩
        rw [← hout, ← hcontent]
        exact CircularBuffer.take_full_append (by rw [hlA]; omega) (by rw [hlB]; omega)
          (by rw [hlA, hlB]; omega)
      · rw [if_neg hc] at h
        exact absurd h (by simp)
    · constructor
      · intro h
        intro hc
        rw [if_pos hc] at h
        exact absurd h (by simp)
      · intro hc
        rw [if_neg hc]
    · rw [if_pos (by rw [hlA, hlB]; omega), List.take_length, List.take_length, hcontent]
  · obtain ⟨hlS, hcontent⟩ := CircularBuffer.seg_nowrap hb hw
    simp only [writeBufferToSDFile, sdWriteCount, if_neg hw]
    refine ⟨?_, ?_, ?_⟩
    · intro b' out h
      by_cases hc : acc ((b.buf.drop b.tail).take b.size) = b.size
      · rw [if_pos hc] at h
        simp only [Option.some.injEq, Prod.mk.injEq] at h
        obtain ⟨hb', hout⟩ := h
        refine ⟨?_, hb'.symm, by rw [← hb', CircularBuffer.size_reset], hc⟩
        rw [← hout, ← hcontent, hc]
        exact List.take_of_length_le (by rw [hlS])
      · rw [if_neg hc] at h
        exact absurd h (by simp)
    · constructor
      · intro h
        intro hc
        rw [if_pos hc] at h
        exact absurd h (by simp)
      · intro hc
        rw [if_neg hc]
    · rw [if_pos (by rw [hlS]), hcontent, List.take_length]

/-- C1 witness: a wrapped full buffer (six pushes into capacity 4, so
`tail = 2 > 0` and the buffer is full) written through a sink that accepts
every byte. -/
theorem C1_sdfile_write_chronological_witness :
    ((CircularBuffer.putList (CircularBuffer.mkBuffer 4) [1, 2, 3, 4, 5, 6]).Inv ∧
      0 < (CircularBuffer.putList (CircularBuffer.mkBuffer 4) [1, 2, 3, 4, 5, 6]).size) ∧
    ((∀ b' out, writeBufferToSDFile
          (CircularBuffer.putList (CircularBuffer.mkBuffer 4) [1, 2, 3, 4, 5, 6])
          (fun c => c.length) = some (b', out) →
        out = (CircularBuffer.putList (CircularBuffer.mkBuffer 4) [1, 2, 3, 4, 5, 6]).toList ∧
        b' = (CircularBuffer.putList (CircularBuffer.mkBuffer 4) [1, 2, 3, 4, 5, 6]).reset ∧
        b'.size = 0 ∧
        sdWriteCount (CircularBuffer.putList (CircularBuffer.mkBuffer 4) [1, 2, 3, 4, 5, 6])
          (fun c => c.length) =
          (CircularBuffer.putList (CircularBuffer.mkBuffer 4) [1, 2, 3, 4, 5, 6]).size) ∧
    (writeBufferToSDFile
        (CircularBuffer.putList (CircularBuffer.mkBuffer 4) [1, 2, 3, 4, 5, 6])
        (fun c => c.length) = none ↔
      sdWriteCount (CircularBuffer.putList (CircularBuffer.mkBuffer 4) [1, 2, 3, 4, 5, 6])
        (fun c => c.length) ≠
        (CircularBuffer.putList (CircularBuffer.mkBuffer 4) [1, 2, 3, 4, 5, 6]).size) ∧
    writeBufferToSDFile
        (CircularBuffer.putList (CircularBuffer.mkBuffer 4) [1, 2, 3, 4, 5, 6])
        (fun c => c.length) =
      some ((CircularBuffer.putList (CircularBuffer.mkBuffer 4) [1, 2, 3, 4, 5, 6]).reset,
        (CircularBuffer.putList (CircularBuffer.mkBuffer 4) [1, 2, 3, 4, 5, 6]).toList)) :=
  ⟨⟨by decide, by decide⟩,
    C1_sdfile_write_chronological _ _ (by decide) (by decide) (fun c => Nat.le_refl _)⟩
/-- C5: `TeensySDRotationalModuleLogger::writeBufferToSDFile` does not
implement the claimed protocol.  On the reachable non-wrapped state reached
by pushing `[1,2,3]` into a fresh capacity-4 buffer (`head = 3 > tail = 0`),
the code calls `file_.write(&buffer[head], capacity())` — an out-of-bounds
read, and a byte count that cannot match `size()` — so the flush faults
(`errorHalt`) instead of persisting `[1,2,3]`.  On the reachable wrapped
state reached by pushing `[1,2,3,4]` and getting twice (`head = 0`,
`tail = 2`, logical contents `[3,4]`), the routine "succeeds": it writes
`buffer[0..tail) = [1,2]` — stale bytes, not the buffered record — and
resets the buffer, losing `[3,4]`. -/
theorem C5_teensy_module_write_wrong :
    (CircularBuffer.putList (CircularBuffer.mkBuffer 4) [1, 2, 3]).Inv ∧
    (CircularBuffer.putList (CircularBuffer.mkBuffer 4) [1, 2, 3]).toList = [1, 2, 3] ∧
    teensyModuleWriteToSDFile (CircularBuffer.putList (CircularBuffer.mkBuffer 4) [1, 2, 3])
      (fun c => c.length) = none ∧
    ((CircularBuffer.putList (CircularBuffer.mkBuffer 4) [1, 2, 3, 4]).get.2.get.2).Inv ∧
    ((CircularBuffer.putList (CircularBuffer.mkBuffer 4) [1, 2, 3, 4]).get.2.get.2).toList
      = [3, 4] ∧
    teensyModuleWriteToSDFile
        ((CircularBuffer.putList (CircularBuffer.mkBuffer 4) [1, 2, 3, 4]).get.2.get.2)
        (fun c => c.length) =
      some (((CircularBuffer.putList (CircularBuffer.mkBuffer 4) [1, 2, 3, 4]).get.2.get.2).reset,
        [1, 2]) ∧
    ([1, 2] : List Nat) ≠
      ((CircularBuffer.putList (CircularBuffer.mkBuffer 4) [1, 2, 3, 4]).get.2.get.2).toList := by
  decide

namespace Logger

theorem addCharWith_preserves (f : Logger → Logger) (st : Logger) (c : Nat)
    (ha : st.autoFlush = false) :
    (addCharWith f st c).sink = st.sink ∧ (addCharWith f st c).console = st.console ∧
    (addCharWith f st c).autoFlush = false ∧ (addCharWith f st c).echo = st.echo ∧
    (addCharWith f st c).enabled = st.enabled ∧ (addCharWith f st c).level = st.level := by
  simp only [addCharWith, logPutc, ha, Bool.false_eq_true, if_false]
  split <;>
    first
    | exact ⟨rfl, rfl, rfl, rfl, rfl, rfl⟩
    | exact ⟨rfl, rfl, ha, rfl, rfl, rfl⟩

theorem foldl_addChar_preserves (f : Logger → Logger) :
    ∀ (msg : List Nat) (st : Logger), st.autoFlush = false →
    ((msg.foldl (addCharWith f) st).sink = st.sink ∧
     (msg.foldl (addCharWith f) st).console = st.console ∧
     (msg.foldl (addCharWith f) st).autoFlush = false ∧
     (msg.foldl (addCharWith f) st).echo = st.echo ∧
     (msg.foldl (addCharWith f) st).enabled = st.enabled ∧
     (msg.foldl (addCharWith f) st).level = st.level) := by
  intro msg
  induction msg with
  | nil => exact fun st ha => ⟨rfl, rfl, ha, rfl, rfl, rfl⟩
  | cons c msg ih =>
    intro st ha
    have h1 := addCharWith_preserves f st c ha
    have h2 := ih (addCharWith f st c) h1.2.2.1
    exact ⟨by rw [List.foldl_cons, h2.1, h1.1],
      by rw [List.foldl_cons, h2.2.1, h1.2.1],
      by rw [List.foldl_cons]; exact h2.2.2.1,
      by rw [List.foldl_cons, h2.2.2.2.1, h1.2.2.2.1],
      by rw [List.foldl_cons, h2.2.2.2.2.1, h1.2.2.2.2.1],
      by rw [List.foldl_cons, h2.2.2.2.2.2, h1.2.2.2.2.2]⟩

theorem printWith_preserves (f : Logger → Logger) (st : Logger) (msg : List Nat)
    (ha : st.autoFlush = false) (he : st.echo = false) :
    (printWith f st msg).sink = st.sink ∧ (printWith f st msg).console = st.console ∧
    (printWith f st msg).autoFlush = st.autoFlush ∧
    (printWith f st msg).echo = st.echo := by
  have h := foldl_addChar_preserves f msg st ha
  simp only [printWith]
  rw [if_neg (by rw [h.2.2.2.1, he]; simp)]
  exact ⟨h.1, h.2.1, by rw [h.2.2.1, ha], by rw [h.2.2.2.1, he]⟩

end Logger

/-- C10: the setters `echo(bool)` and `auto_flush(bool)` store the argument
in their field, modify no other field, and return the value the field held
immediately before the call; feeding the returned value back into the same
setter restores the original logger state exactly. -/
theorem C10_setter_round_trip (st : Logger) (en : Bool) :
    (st.echoSet en).1 = st.echo ∧
    ((st.echoSet en).2).echo = en ∧
    ((st.echoSet en).2).enabled = st.enabled ∧
    ((st.echoSet en).2).autoFlush = st.autoFlush ∧
    ((st.echoSet en).2).overrunOccurred = st.overrunOccurred ∧
    ((st.echoSet en).2).level = st.level ∧
    ((st.echoSet en).2).buf = st.buf ∧
    ((st.echoSet en).2).sink = st.sink ∧
    ((st.echoSet en).2).console = st.console ∧
    (((st.echoSet en).2).echoSet ((st.echoSet en).1)).2 = st ∧
    (st.autoFlushSet en).1 = st.autoFlush ∧
    ((st.autoFlushSet en).2).autoFlush = en ∧
    ((st.autoFlushSet en).2).enabled = st.enabled ∧
    ((st.autoFlushSet en).2).echo = st.echo ∧
    ((st.autoFlushSet en).2).overrunOccurred = st.overrunOccurred ∧
    ((st.autoFlushSet en).2).level = st.level ∧
    ((st.autoFlushSet en).2).buf = st.buf ∧
    ((st.autoFlushSet en).2).sink = st.sink ∧
    ((st.autoFlushSet en).2).console = st.console ∧
    (((st.autoFlushSet en).2).autoFlushSet ((st.autoFlushSet en).1)).2 = st :=
  ⟨rfl, rfl, rfl, rfl, rfl, rfl, rfl, rfl, rfl, rfl,
   rfl, rfl, rfl, rfl, rfl, rfl, rfl, rfl, rfl, rfl⟩

/-- C3: for every logger state, level and rendered message, `log_interrupt`
never writes to the sink, never echoes to the console, and restores the
auto-flush and echo settings bit-for-bit — even when auto-flush and echo are
both enabled and the buffer is full. -/
theorem C3_log_interrupt_no_flush_no_echo (fuel : Nat) (st : Logger) (l : Nat)
    (msg : List Nat) :
    (Logger.logInterruptF fuel st l msg).sink = st.sink ∧
    (Logger.logInterruptF fuel st l msg).console = st.console ∧
    (Logger.logInterruptF fuel st l msg).autoFlush = st.autoFlush ∧
    (Logger.logInterruptF fuel st l msg).echo = st.echo := by
  unfold Logger.logInterruptF
  split
  · have hp := Logger.printWith_preserves (Logger.flushF fuel)
      (((st.autoFlushSet false).2).echoSet false).2 msg rfl rfl
    exact ⟨hp.1, hp.2.1, rfl, rfl⟩
  · exact ⟨rfl, rfl, rfl, rfl⟩

namespace Logger

theorem flushSink_spec (st : Logger) (hb : st.buf.Inv) :
    (flushSink st).sink = st.sink ++ st.buf.toList ∧
    (flushSink st).buf.Inv ∧
    (flushSink st).buf.size = 0 ∧
    (flushSink st).buf.maxSize = st.buf.maxSize ∧
    (flushSink st).enabled = st.enabled ∧
    (flushSink st).overrunOccurred = st.overrunOccurred ∧
    (flushSink st).echo = st.echo ∧
    (flushSink st).autoFlush = st.autoFlush ∧
    (flushSink st).level = st.level ∧
    (flushSink st).console = st.console := by
  have hd := CircularBuffer.drain_spec hb
  exact ⟨by show st.sink ++ (st.buf.drain).1 = _; rw [hd.1],
    hd.2.1, hd.2.2.1, hd.2.2.2.1, rfl, rfl, rfl, rfl, rfl, rfl⟩

theorem foldl_addChar_of_room (f : Logger → Logger) :
    ∀ (msg : List Nat) (st : Logger), st.buf.Inv →
    st.buf.size + msg.length ≤ st.buf.capacity →
    msg.foldl (addCharWith f) st = { st with buf := st.buf.putList msg } := by
  intro msg
  induction msg with
  | nil => exact fun st _ _ => rfl
  | cons c msg ih =>
    intro st hb hroom
    rw [CircularBuffer.capacity_def] at hroom
    have hne : ¬ (st.buf.size = st.buf.capacity) := by
      rw [CircularBuffer.capacity_def]
      simp only [List.length_cons] at hroom
      omega
    have hstep : addCharWith f st c = { st with buf := st.buf.putD c } := by
      simp only [addCharWith, logPutc, if_neg hne]
    have hsz := CircularBuffer.size_putD hb c
    rw [List.foldl_cons, hstep,
      ih { st with buf := st.buf.putD c } (CircularBuffer.putD_inv hb c)
        (by show (st.buf.putD c).size + msg.length ≤ (st.buf.putD c).capacity
            rw [CircularBuffer.capacity_def, CircularBuffer.maxSize_putD, hsz]
            simp only [List.length_cons] at hroom
            have := CircularBuffer.size_le hb
            omega)]
    rfl

end Logger

namespace Logger

theorem printWith_components (f : Logger → Logger) (st : Logger) (msg : List Nat)
    (hbi : st.buf.Inv) (hroom : st.buf.size + msg.length ≤ st.buf.capacity) :
    (printWith f st msg).sink = st.sink ∧
    (printWith f st msg).buf = st.buf.putList msg ∧
    (printWith f st msg).enabled = st.enabled ∧
    (printWith f st msg).level = st.level := by
  simp only [printWith]
  rw [foldl_addChar_of_room f msg st hbi hroom]
  split <;> exact ⟨rfl, rfl, rfl, rfl⟩

end Logger

set_option maxRecDepth 4000 in
/-- C2 counterexample: a `CircularLogBufferLogger<2>` constructed disabled
(`LoggerBase(false)`, the strategy's default `auto_flush = false`).
`print("abc")` renders three bytes through `log_add_char_to_buffer`; the
third byte finds the buffer full, so `has_overrun()` becomes true.  The
next `flush()` writes the two buffered bytes and clears the flag, but the
synthetic overrun record is never appended — `critical(...)` is a no-op on
a disabled logger — so the claim's "appends the overrun-notice record to the
sink output exactly once" is false as stated: the whole sink output is
shorter than the notice. -/
theorem C2_overrun_counterexample :
    (Logger.printWith (Logger.flushF 9)
      ⟨false, false, false, 5, false, CircularBuffer.mkBuffer 2, [], []⟩
      [97, 98, 99]).overrunOccurred = true ∧
    (Logger.printWith (Logger.flushF 9)
      ⟨false, false, false, 5, false, CircularBuffer.mkBuffer 2, [], []⟩
      [97, 98, 99]).buf.toList = [98, 99] ∧
    (Logger.flushF 9 (Logger.printWith (Logger.flushF 9)
      ⟨false, false, false, 5, false, CircularBuffer.mkBuffer 2, [], []⟩
      [97, 98, 99])).sink = [98, 99] ∧
    (Logger.flushF 9 (Logger.printWith (Logger.flushF 9)
      ⟨false, false, false, 5, false, CircularBuffer.mkBuffer 2, [], []⟩
      [97, 98, 99])).overrunOccurred = false ∧
    (Logger.flushF 9 (Logger.printWith (Logger.flushF 9)
      ⟨false, false, false, 5, false, CircularBuffer.mkBuffer 2, [], []⟩
      [97, 98, 99])).sink.length < Logger.overrunMsg.length := by
  decide

set_option maxRecDepth 4000 in
/-- C2 (amended): pushing a byte while the internal buffer is full with
auto-flush disabled sets `has_overrun()`, and it stays set across further
pushes; provided the logger is enabled, the level filter admits critical
records, and the buffer capacity is at least the rendered overrun-notice
length, the next `flush()` of a non-empty buffer writes the buffered bytes,
appends the synthetic critical overrun record to the sink exactly once, and
clears the flag. -/
theorem C2_overrun_flush_amended :
    (∀ (fuel : Nat) (st : Logger) (c : Nat), st.autoFlush = false →
        st.buf.size = st.buf.capacity →
        (Logger.addCharF fuel st c).overrunOccurred = true) ∧
    (∀ (fuel : Nat) (st : Logger) (c : Nat), st.autoFlush = false →
        st.overrunOccurred = true →
        (Logger.addCharF fuel st c).overrunOccurred = true) ∧
    (∀ (fuel : Nat) (st : Logger), st.buf.Inv → 0 < st.buf.size →
        st.overrunOccurred = true → st.enabled = true → 1 ≤ st.level →
        Logger.overrunMsg.length ≤ st.buf.capacity →
        (Logger.flushF (fuel + 1) st).sink =
          st.sink ++ st.buf.toList ++ Logger.overrunMsg ∧
        (Logger.flushF (fuel + 1) st).overrunOccurred = false ∧
        (Logger.flushF (fuel + 1) st).buf.size = 0) := by
  refine ⟨?_, ?_, ?_⟩
  · intro fuel st c ha hful
    simp only [Logger.addCharF, Logger.addCharWith, Logger.logPutc, if_pos hful, ha,
      Bool.false_eq_true, if_false]
  · intro fuel st c ha hov
    by_cases hful : st.buf.size = st.buf.capacity
    · simp only [Logger.addCharF, Logger.addCharWith, Logger.logPutc, if_pos hful, ha,
        Bool.false_eq_true, if_false]
    · simp only [Logger.addCharF, Logger.addCharWith, Logger.logPutc, if_neg hful]
      exact hov
  · intro fuel st hb hpos hov hen hlev hcap
    obtain ⟨hs1, hbi1, hsz1, hmx1, hen1, hov1, hec1, haf1, hlv1, hcs1⟩ :=
      Logger.flushSink_spec st hb
    have hovt : (Logger.flushSink st).overrunOccurred = true := by rw [hov1, hov]
    have hroom1 : (Logger.flushSink st).buf.size + Logger.overrunMsg.length ≤
        (Logger.flushSink st).buf.capacity := by
      rw [hsz1, CircularBuffer.capacity_def, hmx1]
      rw [CircularBuffer.capacity_def] at hcap
      omega
    have hlog : Logger.logWith (Logger.flushF fuel) (Logger.flushSink st) 1
          Logger.overrunMsg
        = Logger.printWith (Logger.flushF fuel) (Logger.flushSink st)
          Logger.overrunMsg := by
      simp only [Logger.logWith]
      rw [if_pos ⟨by rw [hen1]; exact hen, by rw [hlv1]; exact hlev⟩]
    obtain ⟨hps, hpb, -, -⟩ := Logger.printWith_components (Logger.flushF fuel)
      (Logger.flushSink st) Logger.overrunMsg hbi1 hroom1
    have hXInv : (Logger.printWith (Logger.flushF fuel) (Logger.flushSink st)
        Logger.overrunMsg).buf.Inv := by
      rw [hpb]
      exact (CircularBuffer.putList_spec _ _ hbi1).1
    obtain ⟨hs2, -, hsz2, -, -, -, -, -, -, -⟩ := Logger.flushSink_spec _ hXInv
    have hfsink : (Logger.flushF (fuel + 1) st).sink =
        (Logger.flushSink (Logger.logWith (Logger.flushF fuel)
          (Logger.flushSink st) 1 Logger.overrunMsg)).sink := by
      simp only [Logger.flushF]
      rw [if_pos hpos, if_pos hovt]
    have hfov : (Logger.flushF (fuel + 1) st).overrunOccurred = false := by
      simp only [Logger.flushF]
      rw [if_pos hpos, if_pos hovt]
    have hfsize : (Logger.flushF (fuel + 1) st).buf.size =
        (Logger.flushSink (Logger.logWith (Logger.flushF fuel)
          (Logger.flushSink st) 1 Logger.overrunMsg)).buf.size := by
      simp only [Logger.flushF]
      rw [if_pos hpos, if_pos hovt]
    have hmsg : CircularBuffer.toList
        (((Logger.flushSink st).buf).putList Logger.overrunMsg) =
        Logger.overrunMsg := by
      rw [(CircularBuffer.putList_spec _ _ hbi1).2.2,
        CircularBuffer.toList_eq_nil hbi1 hsz1, List.nil_append,
        show (Logger.flushSink st).buf.size + Logger.overrunMsg.length -
            (Logger.flushSink st).buf.maxSize = 0 from by
          rw [hsz1, hmx1]
          rw [CircularBuffer.capacity_def] at hcap
          omega,
        List.drop_zero]
    refine ⟨?_, hfov, ?_⟩
    · rw [hfsink, hlog, hs2, hps, hpb, hs1, hmsg]
    · rw [hfsize, hlog]
      exact hsz2

/-- C2 (amended) witness: a full capacity-2 buffer with auto-flush disabled
for the push parts, and an enabled capacity-40 logger with the overrun flag
set for the flush part. -/
theorem C2_overrun_flush_amended_witness :
    ((⟨true, false, false, 5, false,
        CircularBuffer.putList (CircularBuffer.mkBuffer 2) [1, 2], [], []⟩ :
        Logger).autoFlush = false ∧
      (⟨true, false, false, 5, false,
        CircularBuffer.putList (CircularBuffer.mkBuffer 2) [1, 2], [], []⟩ :
        Logger).buf.size =
      (⟨true, false, false, 5, false,
        CircularBuffer.putList (CircularBuffer.mkBuffer 2) [1, 2], [], []⟩ :
        Logger).buf.capacity ∧
      (⟨true, false, true, 5, false,
        CircularBuffer.putList (CircularBuffer.mkBuffer 40) [72, 105], [7], []⟩ :
        Logger).buf.Inv ∧
      0 < (⟨true, false, true, 5, false,
        CircularBuffer.putList (CircularBuffer.mkBuffer 40) [72, 105], [7], []⟩ :
        Logger).buf.size ∧
      Logger.overrunMsg.length ≤
        (⟨true, false, true, 5, false,
          CircularBuffer.putList (CircularBuffer.mkBuffer 40) [72, 105], [7], []⟩ :
          Logger).buf.capacity) ∧
    (Logger.addCharF 0
        (⟨true, false, false, 5, false,
          CircularBuffer.putList (CircularBuffer.mkBuffer 2) [1, 2], [], []⟩ : Logger)
        7).overrunOccurred = true ∧
    (Logger.addCharF 0
        (⟨true, false, true, 5, false,
          CircularBuffer.putList (CircularBuffer.mkBuffer 40) [72, 105], [7], []⟩ :
          Logger)
        7).overrunOccurred = true ∧
    ((Logger.flushF (0 + 1)
        (⟨true, false, true, 5, false,
          CircularBuffer.putList (CircularBuffer.mkBuffer 40) [72, 105], [7], []⟩ :
          Logger)).sink =
      (⟨true, false, true, 5, false,
        CircularBuffer.putList (CircularBuffer.mkBuffer 40) [72, 105], [7], []⟩ :
        Logger).sink ++
      (⟨true, false, true, 5, false,
        CircularBuffer.putList (CircularBuffer.mkBuffer 40) [72, 105], [7], []⟩ :
        Logger).buf.toList ++ Logger.overrunMsg ∧
    (Logger.flushF (0 + 1)
        (⟨true, false, true, 5, false,
          CircularBuffer.putList (CircularBuffer.mkBuffer 40) [72, 105], [7], []⟩ :
          Logger)).overrunOccurred = false ∧
    (Logger.flushF (0 + 1)
        (⟨true, false, true, 5, false,
          CircularBuffer.putList (CircularBuffer.mkBuffer 40) [72, 105], [7], []⟩ :
          Logger)).buf.size = 0) :=
  ⟨⟨by decide, by decide, by decide, by decide, by decide⟩,
    C2_overrun_flush_amended.1 0 _ 7 (by decide) (by decide),
    C2_overrun_flush_amended.2.1 0 _ 7 (by decide) (by decide),
    C2_overrun_flush_amended.2.2 0 _ (by decide) (by decide) (by decide) (by decide)
      (by decide) (by decide)⟩

theorem eepromStep (e : EEPROMState) (c : Nat) (h : e.writePos < e.logSize) :
    (EEPROMWriteAndIncrement e c).mem =
      (fun a => if a = e.logAddress + e.writePos then c else e.mem a) ∧
    (EEPROMWriteAndIncrement e c).writePos = (e.writePos + 1) % e.logSize ∧
    (EEPROMWriteAndIncrement e c).logAddress = e.logAddress ∧
    (EEPROMWriteAndIncrement e c).logSize = e.logSize ∧
    (EEPROMWriteAndIncrement e c).eepromFull =
      (e.eepromFull || decide (e.logSize ≤ e.writePos + 1)) := by
  by_cases hw : e.writePos + 1 = e.logSize
  · have he : EEPROMWriteAndIncrement e c = { e with
        mem := fun a => if a = e.logAddress + e.writePos then c else e.mem a,
        writePos := 0, eepromFull := true } := by
      simp [EEPROMWriteAndIncrement, hw]
    rw [he]
    refine ⟨rfl, ?_, rfl, rfl, ?_⟩
    · show 0 = (e.writePos + 1) % e.logSize
      rw [hw, Nat.mod_self]
    · show true = (e.eepromFull || decide (e.logSize ≤ e.writePos + 1))
      rw [decide_eq_true (show e.logSize ≤ e.writePos + 1 from by omega), Bool.or_true]
  · have he : EEPROMWriteAndIncrement e c = { e with
        mem := fun a => if a = e.logAddress + e.writePos then c else e.mem a,
        writePos := e.writePos + 1 } := by
      simp [EEPROMWriteAndIncrement, hw]
    rw [he]
    refine ⟨rfl, ?_, rfl, rfl, ?_⟩
    · show e.writePos + 1 = (e.writePos + 1) % e.logSize
      rw [Nat.mod_eq_of_lt (by omega)]
    · show e.eepromFull = (e.eepromFull || decide (e.logSize ≤ e.writePos + 1))
      rw [decide_eq_false (show ¬ e.logSize ≤ e.writePos + 1 from by omega), Bool.or_false]

theorem foldl_eeprom_spec : ∀ (L : List Nat) (e : EEPROMState),
    e.writePos < e.logSize →
    ((L.foldl EEPROMWriteAndIncrement e).writePos =
        (e.writePos + L.length) % e.logSize ∧
     (L.foldl EEPROMWriteAndIncrement e).logAddress = e.logAddress ∧
     (L.foldl EEPROMWriteAndIncrement e).logSize = e.logSize ∧
     (L.foldl EEPROMWriteAndIncrement e).eepromFull =
       (e.eepromFull || decide (e.logSize ≤ e.writePos + L.length)) ∧
     (e.writePos + L.length ≤ e.logSize →
       (∀ a, a < e.logAddress + e.writePos →
         (L.foldl EEPROMWriteAndIncrement e).mem a = e.mem a) ∧
       (∀ i, i < L.length →
         (L.foldl EEPROMWriteAndIncrement e).mem (e.logAddress + e.writePos + i) =
           L.getD i 0))) := by
  intro L
  induction L with
  | nil =>
    intro e h
    refine ⟨by simp [Nat.mod_eq_of_lt h], rfl, rfl, ?_, ?_⟩
    · rw [List.foldl_nil, List.length_nil, Nat.add_zero,
        decide_eq_false (by omega), Bool.or_false]
    · intro _
      exact ⟨fun a _ => rfl, fun i hi => absurd hi (by simp)⟩
  | cons c L ih =>
    intro e h
    obtain ⟨sm, sp, sa, ss, sf⟩ := eepromStep e c h
    have h1 : (EEPROMWriteAndIncrement e c).writePos <
        (EEPROMWriteAndIncrement e c).logSize := by
      rw [sp, ss]
      exact Nat.mod_lt _ (by omega)
    have ih1 := ih (EEPROMWriteAndIncrement e c) h1
    rw [List.foldl_cons]
    rw [sp, sa, ss, sf] at ih1
    by_cases hw : e.writePos + 1 = e.logSize
    · have hp0 : (e.writePos + 1) % e.logSize = 0 := by rw [hw, Nat.mod_self]
      rw [hp0] at ih1
      refine ⟨?_, ih1.2.1, ih1.2.2.1, ?_, ?_⟩
      · rw [ih1.1, List.length_cons,
          show e.writePos + (L.length + 1) = e.logSize + L.length from by omega,
          Nat.add_mod_left, Nat.zero_add]
      · rw [ih1.2.2.2.1, List.length_cons,
          decide_eq_true (show e.logSize ≤ e.writePos + 1 from by omega),
          Bool.or_true, Bool.true_or,
          decide_eq_true (show e.logSize ≤ e.writePos + (L.length + 1) from by omega),
          Bool.or_true]
      · intro hle
        rw [List.length_cons] at hle
        have hL0 : L = [] := List.eq_nil_of_length_eq_zero (by omega)
        subst hL0
        constructor
        · intro a ha
          rw [List.foldl_nil, sm]
          exact if_neg (by omega)
        · intro i hi
          have hi0 : i = 0 := by simpa using hi
          subst hi0
          rw [List.foldl_nil, sm, Nat.add_zero]
          simp
    · have hps : (e.writePos + 1) % e.logSize = e.writePos + 1 :=
        Nat.mod_eq_of_lt (by omega)
      rw [hps] at ih1
      refine ⟨?_, ih1.2.1, ih1.2.2.1, ?_, ?_⟩
      · rw [ih1.1, List.length_cons,
          show e.writePos + 1 + L.length = e.writePos + (L.length + 1) from by omega]
      · rw [ih1.2.2.2.1, List.length_cons,
          decide_eq_false (show ¬ e.logSize ≤ e.writePos + 1 from by omega), Bool.or_false,
          show e.writePos + 1 + L.length = e.writePos + (L.length + 1) from by omega]
      · intro hle
        rw [List.length_cons] at hle
        have hmem := ih1.2.2.2.2 (by omega)
        constructor
        · intro a ha
          rw [hmem.1 a (by omega), sm]
          exact if_neg (by omega)
        · intro i hi
          cases i with
          | zero =>
            rw [Nat.add_zero, hmem.1 (e.logAddress + e.writePos) (by omega), sm]
            simp
          | succ j =>
            have := hmem.2 j (by simpa using hi)
            rw [show e.logAddress + e.writePos + (j + 1) =
                e.logAddress + (e.writePos + 1) + j from by omega, this]
            simp

/-- C9: in `TeensyRobustModuleLogger`'s EEPROM fallback, flushing a
non-empty buffer drains it byte-by-byte through `EEPROMWriteAndIncrement`
starting at the persistent cursor, then writes a single `0x00` sentinel:
the buffer ends empty, the cursor advances by `size() + 1` wrapping at the
window size, the window-full flag latches (it is set permanently once the
cursor has wrapped, and never cleared), and when the flush fits in the
remaining window the cells from the cursor hold exactly the buffered bytes
followed by the `0x00` sentinel, with all cells below the cursor (including
stale bytes of earlier, longer log cycles before it) untouched. -/
theorem C9_eeprom_flush_layout (b : CircularBuffer) (e : EEPROMState)
    (hb : b.Inv) (_hpos : 0 < b.size) (hcur : e.writePos < e.logSize) :
    (flushEEPROM b e).1.size = 0 ∧
    (flushEEPROM b e).2.writePos = (e.writePos + (b.size + 1)) % e.logSize ∧
    (flushEEPROM b e).2.logAddress = e.logAddress ∧
    (flushEEPROM b e).2.logSize = e.logSize ∧
    (flushEEPROM b e).2.eepromFull =
      (e.eepromFull || decide (e.logSize ≤ e.writePos + (b.size + 1))) ∧
    (e.writePos + (b.size + 1) ≤ e.logSize →
      (∀ i, i < b.size →
        (flushEEPROM b e).2.mem (e.logAddress + e.writePos + i) = b.toList.getD i 0) ∧
      (flushEEPROM b e).2.mem (e.logAddress + e.writePos + b.size) = 0 ∧
      (∀ a, a < e.logAddress + e.writePos → (flushEEPROM b e).2.mem a = e.mem a)) := by
  have hd := CircularBuffer.drain_spec hb
  have hlt := CircularBuffer.length_toList hb
  have heq : (flushEEPROM b e).2 =
      (b.toList ++ [0]).foldl EEPROMWriteAndIncrement e := by
    show EEPROMWriteAndIncrement ((b.drain).1.foldl EEPROMWriteAndIncrement e) 0 = _
    rw [hd.1, List.foldl_append, List.foldl_cons, List.foldl_nil]
  have hlen : (b.toList ++ [0]).length = b.size + 1 := by
    rw [List.length_append, hlt, List.length_singleton]
  have hf := foldl_eeprom_spec (b.toList ++ [0]) e hcur
  rw [hlen] at hf
  have hfirst : (flushEEPROM b e).1.size = 0 := by
    show ((b.drain).2.reset).size = 0
    exact CircularBuffer.size_reset _
  refine ⟨hfirst, by rw [heq, hf.1], by rw [heq, hf.2.1], by rw [heq, hf.2.2.1],
    by rw [heq, hf.2.2.2.1], ?_⟩
  intro hle
  have hmem := hf.2.2.2.2 (by omega)
  refine ⟨?_, ?_, ?_⟩
  · intro i hi
    rw [heq, hmem.2 i (by omega)]
    rw [List.getD_eq_getElem?_getD, List.getElem?_append, if_pos (by rw [hlt]; omega),
      ← List.getD_eq_getElem?_getD]
  · rw [heq, hmem.2 b.size (by omega)]
    rw [List.getD_eq_getElem?_getD, List.getElem?_append,
      if_neg (by rw [hlt]; omega), hlt, Nat.sub_self]
    rfl
  · intro a ha
    rw [heq, hmem.1 a ha]

/-- C9 witness: a two-byte buffer flushed into an eight-byte window at
cursor position 1. -/
theorem C9_eeprom_flush_layout_witness :
    ((CircularBuffer.putList (CircularBuffer.mkBuffer 2) [65, 66]).Inv ∧
      0 < (CircularBuffer.putList (CircularBuffer.mkBuffer 2) [65, 66]).size ∧
      (⟨fun _ => 7, 1, 10, 8, false⟩ : EEPROMState).writePos <
        (⟨fun _ => 7, 1, 10, 8, false⟩ : EEPROMState).logSize) ∧
    ((flushEEPROM (CircularBuffer.putList (CircularBuffer.mkBuffer 2) [65, 66])
        ⟨fun _ => 7, 1, 10, 8, false⟩).1.size = 0 ∧
    (flushEEPROM (CircularBuffer.putList (CircularBuffer.mkBuffer 2) [65, 66])
        ⟨fun _ => 7, 1, 10, 8, false⟩).2.writePos =
      ((⟨fun _ => 7, 1, 10, 8, false⟩ : EEPROMState).writePos +
        ((CircularBuffer.putList (CircularBuffer.mkBuffer 2) [65, 66]).size + 1)) %
        (⟨fun _ => 7, 1, 10, 8, false⟩ : EEPROMState).logSize ∧
    (flushEEPROM (CircularBuffer.putList (CircularBuffer.mkBuffer 2) [65, 66])
        ⟨fun _ => 7, 1, 10, 8, false⟩).2.logAddress =
      (⟨fun _ => 7, 1, 10, 8, false⟩ : EEPROMState).logAddress ∧
    (flushEEPROM (CircularBuffer.putList (CircularBuffer.mkBuffer 2) [65, 66])
        ⟨fun _ => 7, 1, 10, 8, false⟩).2.logSize =
      (⟨fun _ => 7, 1, 10, 8, false⟩ : EEPROMState).logSize ∧
    (flushEEPROM (CircularBuffer.putList (CircularBuffer.mkBuffer 2) [65, 66])
        ⟨fun _ => 7, 1, 10, 8, false⟩).2.eepromFull =
      ((⟨fun _ => 7, 1, 10, 8, false⟩ : EEPROMState).eepromFull ||
        decide ((⟨fun _ => 7, 1, 10, 8, false⟩ : EEPROMState).logSize ≤
          (⟨fun _ => 7, 1, 10, 8, false⟩ : EEPROMState).writePos +
          ((CircularBuffer.putList (CircularBuffer.mkBuffer 2) [65, 66]).size + 1))) ∧
    ((⟨fun _ => 7, 1, 10, 8, false⟩ : EEPROMState).writePos +
        ((CircularBuffer.putList (CircularBuffer.mkBuffer 2) [65, 66]).size + 1) ≤
        (⟨fun _ => 7, 1, 10, 8, false⟩ : EEPROMState).logSize →
      (∀ i, i < (CircularBuffer.putList (CircularBuffer.mkBuffer 2) [65, 66]).size →
        (flushEEPROM (CircularBuffer.putList (CircularBuffer.mkBuffer 2) [65, 66])
            ⟨fun _ => 7, 1, 10, 8, false⟩).2.mem
          ((⟨fun _ => 7, 1, 10, 8, false⟩ : EEPROMState).logAddress +
            (⟨fun _ => 7, 1, 10, 8, false⟩ : EEPROMState).writePos + i) =
          (CircularBuffer.putList (CircularBuffer.mkBuffer 2) [65, 66]).toList.getD i 0) ∧
      (flushEEPROM (CircularBuffer.putList (CircularBuffer.mkBuffer 2) [65, 66])
          ⟨fun _ => 7, 1, 10, 8, false⟩).2.mem
        ((⟨fun _ => 7, 1, 10, 8, false⟩ : EEPROMState).logAddress +
          (⟨fun _ => 7, 1, 10, 8, false⟩ : EEPROMState).writePos +
          (CircularBuffer.putList (CircularBuffer.mkBuffer 2) [65, 66]).size) = 0 ∧
      (∀ a, a < (⟨fun _ => 7, 1, 10, 8, false⟩ : EEPROMState).logAddress +
          (⟨fun _ => 7, 1, 10, 8, false⟩ : EEPROMState).writePos →
        (flushEEPROM (CircularBuffer.putList (CircularBuffer.mkBuffer 2) [65, 66])
            ⟨fun _ => 7, 1, 10, 8, false⟩).2.mem a =
          (⟨fun _ => 7, 1, 10, 8, false⟩ : EEPROMState).mem a))) :=
  ⟨⟨by decide, by decide, by decide⟩,
    C9_eeprom_flush_layout _ _ (by decide) (by decide) (by decide)⟩
